import Mathlib

set_option maxHeartbeats 1000000

/-!
Verification of the PSM ingestion and key-correction stage
(03_load_psm_clean.py) of the chimeric-spectra proteomics pipeline.

Strings are modeled as `List Char`. Python ints are modeled as `Int`
(scan numbers, charges) or `Nat` (replicate indices, which come from pure
digit groups). Python floats that arise here only as parsed decimal
literals (acquisition window sizes) are modeled as exact rationals.
Absent values (None / NaN cells) are modeled with `Option`.
-/

/-- ASCII digit test: the regex class of digits and the digits accepted by
Python int parsing, restricted to ASCII as used by this pipeline. -/
def isAsciiDigit (c : Char) : Bool := 48 ≤ c.toNat && c.toNat ≤ 57

/-- Numeric value of an ASCII digit character. -/
def digitVal (c : Char) : Nat := c.toNat - 48

/-- ASCII whitespace stripped by Python int parsing around its argument. -/
def isPySpace (c : Char) : Bool :=
  c = ' ' || c = '\t' || c = '\n' || c = '\r' || c = Char.ofNat 11 || c = Char.ofNat 12

/-- Digit tail of a Python integer literal: digits, where a single
underscore may separate two digits. Accumulates the value. -/
def pyDigitsVal : List Char → Nat → Option Nat
  | [], acc => some acc
  | '_' :: rest, acc =>
    match rest with
    | c :: rest2 => if isAsciiDigit c then pyDigitsVal rest2 (acc * 10 + digitVal c) else none
    | [] => none
  | c :: rest, acc => if isAsciiDigit c then pyDigitsVal rest (acc * 10 + digitVal c) else none

/-- Nonempty digit sequence of a Python integer literal (underscores allowed
between digits, not leading or trailing). -/
def pyNatOfDigits : List Char → Option Nat
  | [] => none
  | c :: rest => if isAsciiDigit c then pyDigitsVal rest (digitVal c) else none

/-- Model of Python int applied to a string: strip surrounding whitespace,
then an optional sign followed by digits; any other shape raises ValueError,
modeled as `none`. -/
def pyInt (s : List Char) : Option Int :=
  match ((s.dropWhile isPySpace).reverse.dropWhile isPySpace).reverse with
  | '+' :: rest => (pyNatOfDigits rest).map (fun n => (n : Int))
  | '-' :: rest => (pyNatOfDigits rest).map (fun n => -(n : Int))
  | rest => (pyNatOfDigits rest).map (fun n => (n : Int))

/-- Split a string at the last occurrence of `c`: one step of rsplit.
Returns the part before and the part after that occurrence. -/
def splitLast (c : Char) : List Char → Option (List Char × List Char)
  | [] => none
  | x :: rest =>
    match splitLast c rest with
    | some (a, b) => some (x :: a, b)
    | none => if x = c then some ([], rest) else none

/-- Embedding of parse_spectrum_column: rsplit the composite identifier from
the right on the dot into at most 4 segments; with 4 segments, segment 0 is
the run name, int of segment 1 the scan number, int of segment 3 the charge;
otherwise, or when int parsing raises, all three results are absent. -/
def parse_spectrum_column (s : List Char) :
    Option (List Char) × Option Int × Option Int :=
  match splitLast '.' s with
  | none => (none, none, none)
  | some (r1, p3) =>
    match splitLast '.' r1 with
    | none => (none, none, none)
    | some (r2, _p2) =>
      match splitLast '.' r2 with
      | none => (none, none, none)
      | some (name, p1) =>
        match pyInt p1, pyInt p3 with
        | some scan, some charge => (some name, some scan, some charge)
        | _, _ => (none, none, none)

/-- Decimal digit character. Only applied to values below 10. -/
def digitChar (d : Nat) : Char :=
  match d with
  | 0 => '0' | 1 => '1' | 2 => '2' | 3 => '3' | 4 => '4'
  | 5 => '5' | 6 => '6' | 7 => '7' | 8 => '8' | _ => '9'

/-- Fuel-driven decimal rendering, most significant digit first. -/
def natReprGo : Nat → Nat → List Char → List Char
  | 0, n, acc => digitChar n :: acc
  | fuel + 1, n, acc =>
    if n < 10 then digitChar n :: acc
    else natReprGo fuel (n / 10) (digitChar (n % 10) :: acc)

/-- Decimal rendering of a natural number, as Python string formatting
produces for a nonnegative int. -/
def natRepr (n : Nat) : List Char := natReprGo n n []

/-- Decimal rendering of an integer, as Python string formatting produces. -/
def intRepr : Int → List Char
  | Int.ofNat n => natRepr n
  | Int.negSucc m => '-' :: natRepr (m + 1)

/-- Embedding of create_spectrum_key: the formatted string
mzml_name ++ "::" ++ scan_number. -/
def create_spectrum_key (mzml_name : List Char) (scan_number : Int) : List Char :=
  mzml_name ++ ':' :: ':' :: intRepr scan_number

/-- Maximal nonempty digit prefix together with the remainder: the
deterministic behavior of a greedy digit regex group that is followed by a
non-digit literal in the pattern. -/
def takeDigits1 (s : List Char) : Option (List Char × List Char) :=
  match s.takeWhile isAsciiDigit with
  | [] => none
  | d => some (d, s.dropWhile isAsciiDigit)

/-- Consume one expected literal character. -/
def expectChar (c : Char) : List Char → Option (List Char)
  | x :: rest => if x = c then some rest else none
  | [] => none

/-- Value of a plain digit group. -/
def digitsToNat (ds : List Char) : Nat := ds.foldl (fun a c => a * 10 + digitVal c) 0

/-- Matcher for the decimal folder pattern: digits, underscore, digits,
underscore, digits, underscore, digits, the literal mz, underscore, digits,
then anything (re.match is anchored at the start only). The window is the
float of group3.group4, modeled as the exact decimal rational; the replicate
is the int of group 5. -/
def matchDecimalFolder (s : List Char) : Option (ℚ × Nat) := do
  let (_g1, r1) ← takeDigits1 s
  let r2 ← expectChar '_' r1
  let (_g2, r3) ← takeDigits1 r2
  let r4 ← expectChar '_' r3
  let (g3, r5) ← takeDigits1 r4
  let r6 ← expectChar '_' r5
  let (g4, r7) ← takeDigits1 r6
  let r8 ← expectChar 'm' r7
  let r9 ← expectChar 'z' r8
  let r10 ← expectChar '_' r9
  let (g5, _rest) ← takeDigits1 r10
  pure ((digitsToNat g3 : ℚ) + (digitsToNat g4 : ℚ) / (10 : ℚ) ^ g4.length, digitsToNat g5)

/-- Matcher for the integer folder pattern: digits, underscore, digits,
underscore, digits, the literal mz, underscore, digits, then anything. The
window is the float of group 3; the replicate is the int of group 4. -/
def matchIntegerFolder (s : List Char) : Option (ℚ × Nat) := do
  let (_g1, r1) ← takeDigits1 s
  let r2 ← expectChar '_' r1
  let (_g2, r3) ← takeDigits1 r2
  let r4 ← expectChar '_' r3
  let (g3, r5) ← takeDigits1 r4
  let r6 ← expectChar 'm' r5
  let r7 ← expectChar 'z' r6
  let r8 ← expectChar '_' r7
  let (g4, _rest) ← takeDigits1 r8
  pure ((digitsToNat g3 : ℚ), digitsToNat g4)

/-- Embedding of parse_folder_name: try the decimal pattern first, then the
integer pattern, otherwise report both fields absent. -/
def parse_folder_name (s : List Char) : Option ℚ × Option Nat :=
  match matchDecimalFolder s with
  | some (w, rep) => (some w, some rep)
  | none =>
    match matchIntegerFolder s with
    | some (w, rep) => (some w, some rep)
    | none => (none, none)

/-- One input row of a psm.tsv table: the Spectrum and Peptide columns plus
all remaining original fields, passed through unmodified. -/
structure RawRow where
  spectrum : List Char
  peptide : List Char
  others : List (List Char)
deriving DecidableEq

/-- One loaded identification record, as produced by load_single_psm_file:
the original row fields plus folder metadata, the parsed Spectrum fields,
and the spectrum key. -/
structure PsmRow where
  spectrum : List Char
  peptide : List Char
  others : List (List Char)
  source_folder : List Char
  window_mz : Option ℚ
  replicate : Option Nat
  mzml_name : Option (List Char)
  scan_number : Option Int
  charge_from_spectrum : Option Int
  spectrum_key : Option (List Char)
deriving DecidableEq

/-- Row transformation inside load_single_psm_file: attach the folder name
and its metadata, the parsed Spectrum fields, and the spectrum key, the
latter only when both the run name and the scan number parsed. -/
def processRow (folder : List Char) (wz : Option ℚ) (rep : Option Nat) (row : RawRow) : PsmRow :=
  let p := parse_spectrum_column row.spectrum
  { spectrum := row.spectrum
    peptide := row.peptide
    others := row.others
    source_folder := folder
    window_mz := wz
    replicate := rep
    mzml_name := p.1
    scan_number := p.2.1
    charge_from_spectrum := p.2.2
    spectrum_key :=
      match p.1, p.2.1 with
      | some n, some s => some (create_spectrum_key n s)
      | _, _ => none }

/-- One on-disk psm.tsv file: the path components of its containing
directory, and its parsed rows. An unreadable or empty table is modeled by
an empty row list, which load_single_psm_file rejects. -/
structure PsmFile where
  dirParts : List (List Char)
  rows : List RawRow
deriving DecidableEq

/-- Name of the folder directly containing the file. -/
def parentName (f : PsmFile) : List Char := (f.dirParts.getLast?).getD []

/-- Path components of the file itself: the directory components plus the
fixed file name psm.tsv matched by the discovery glob. -/
def fileParts (f : PsmFile) : List (List Char) := f.dirParts ++ ["psm.tsv".data]

/-- Embedding of load_single_psm_file: skip files under a folder literally
named lib, reject unreadable or empty tables, otherwise extract the folder
metadata once and annotate every row. -/
def load_single_psm_file (f : PsmFile) : Option (List PsmRow) :=
  if parentName f = "lib".data then none
  else if f.rows = [] then none
  else
    some (f.rows.map
      (processRow (parentName f) (parse_folder_name (parentName f)).1
        (parse_folder_name (parentName f)).2))

/-- Embedding of the discovery filter in main: keep the found psm.tsv files
whose path components do not contain lib. -/
def discoverFiles (files : List PsmFile) : List PsmFile :=
  files.filter (fun f => decide ("lib".data ∉ fileParts f))

/-- Embedding of the load-and-concatenate phase of main: load each
discovered file, drop the failures, and concatenate the loaded tables. -/
def load_batch (files : List PsmFile) : List PsmRow :=
  ((discoverFiles files).filterMap load_single_psm_file).flatten

/-- Number of records of the table sharing spectrum key k: the size of the
groupby group of k. Records with an absent key belong to no group. -/
def countKey (table : List PsmRow) (k : List Char) : Nat :=
  table.countP (fun r => decide (r.spectrum_key = some k))

/-- Distinct spectrum keys occurring in the table: the groupby group labels. -/
def tableKeys (table : List PsmRow) : List (List Char) :=
  (table.filterMap (fun r => r.spectrum_key)).dedup

/-- The psm_counts series of add_derived_columns: one pair of key and group
size per distinct key. -/
def psm_counts (table : List PsmRow) : List (List Char × Nat) :=
  (tableKeys table).map (fun k => (k, countKey table k))

/-- Series lookup: the count stored for key k, absent when k has no entry. -/
def lookupCount (counts : List (List Char × Nat)) (k : List Char) : Option Nat :=
  (counts.find? (fun p => decide (p.1 = k))).map (fun p => p.2)

/-- The window-category bucket: cut of the window size at breakpoints 0, 4,
12, 100 with right-closed intervals; values outside, and absent windows,
get an absent category. -/
def windowCategory (w : Option ℚ) : Option (List Char) :=
  match w with
  | none => none
  | some x =>
    if 0 < x ∧ x ≤ 4 then some ("narrow".data)
    else if 4 < x ∧ x ≤ 12 then some ("medium".data)
    else if 12 < x ∧ x ≤ 100 then some ("wide".data)
    else none

/-- Scan for the first closing bracket before any newline: the reach of the
non-greedy bracket group at a fixed opening bracket, where the regex dot
does not match a newline. Returns the remainder after the closing bracket. -/
def afterBracket : List Char → Option (List Char)
  | [] => none
  | c :: rest => if c = ']' then some rest else if c = '\n' then none else afterBracket rest

/-- Fuel-driven single pass deleting every minimal bracketed group and
leaving unmatched opening brackets in place. -/
def stripBracketsGo : Nat → List Char → List Char
  | 0, l => l
  | _ + 1, [] => []
  | fuel + 1, c :: rest =>
    if c = '[' then
      match afterBracket rest with
      | some rest2 => stripBracketsGo fuel rest2
      | none => c :: stripBracketsGo fuel rest
    else c :: stripBracketsGo fuel rest

/-- Embedding of the modification-stripping substitution applied to the
Peptide column: delete every minimal bracketed group. The fuel of the list
length is sufficient since every step consumes at least one character. -/
def stripBrackets (l : List Char) : List Char := stripBracketsGo l.length l

/-- One record of the consolidated table after add_derived_columns. -/
structure AnnRow extends PsmRow where
  window_category : Option (List Char)
  n_psm : Option Nat
  is_chimeric : Bool
  peptide_length : Nat
deriving DecidableEq

/-- Per-record annotation of add_derived_columns, with counts the
precomputed per-key group sizes of the whole table. A record with an absent
key gets an absent count, and its chimeric flag, the comparison of an
absent count with 2, is False as in pandas. -/
def annotateRow (counts : List (List Char × Nat)) (r : PsmRow) : AnnRow :=
  let np := r.spectrum_key.bind (fun k => lookupCount counts k)
  { toPsmRow := r
    window_category := windowCategory r.window_mz
    n_psm := np
    is_chimeric := match np with | some n => decide (2 ≤ n) | none => false
    peptide_length := (stripBrackets r.peptide).length }

/-- Embedding of add_derived_columns. -/
def add_derived_columns (table : List PsmRow) : List AnnRow :=
  table.map (annotateRow (psm_counts table))

/-- Embedding of the chimeric-only subset written by save_outputs: the
records whose chimeric flag is set. -/
def chimeric_subset (df : List AnnRow) : List AnnRow :=
  df.filter (fun r => r.is_chimeric)

/-- Full ingestion pipeline on the discovered files: load, concatenate,
annotate. -/
def fullPipeline (files : List PsmFile) : List AnnRow :=
  add_derived_columns (load_batch files)

/-- Abstraction of a directory for main: whether the path exists, and the
psm.tsv files found below it. -/
structure DirHandle where
  pathExists : Bool
  files : List PsmFile
deriving DecidableEq

/-- Observable outcome of main: the exit status, the error lines printed,
the loaded consolidated table, and the output files written. -/
structure MainResult where
  exitCode : Nat
  errorLines : List (List Char)
  loadedTable : List PsmRow
  outputsWritten : List (List Char)
deriving DecidableEq

/-- Error text printed by main when the PSM directory cannot be located:
the report and the remediation instruction. -/
def psmDirErrorLines : List (List Char) :=
  ["ERROR: Cannot find PSM directory!".data,
   "Specify with: --psm-dir /path/to/fragpipe/".data]

/-- Control flow of main around directory resolution: the command-line
override is used when given, otherwise the search result; a missing or
nonexistent directory is a fatal configuration error, exit status 1, before
any file is loaded or any output written. A dry run only reports the
discovered files. -/
def main_flow (cliPsmDir : Option DirHandle) (searchResult : Option DirHandle)
    (dryRun : Bool) : MainResult :=
  let resolved := match cliPsmDir with
    | some d => some d
    | none => searchResult
  match resolved with
  | none =>
    { exitCode := 1, errorLines := psmDirErrorLines, loadedTable := [], outputsWritten := [] }
  | some d =>
    if d.pathExists = false then
      { exitCode := 1, errorLines := psmDirErrorLines, loadedTable := [], outputsWritten := [] }
    else if dryRun then
      { exitCode := 0, errorLines := [], loadedTable := [], outputsWritten := [] }
    else
      { exitCode := 0, errorLines := [], loadedTable := load_batch d.files,
        outputsWritten := ["psm_clean.csv".data, "psm_chimeric.csv".data,
          "spectrum_to_file.pkl".data, "psm_stats.pkl".data] }

/-- Sample raw row used by the concrete instances below. -/
def mkSampleRow (sp : List Char) : RawRow :=
  { spectrum := sp, peptide := "PEPTIDE".data, others := [] }

/-- Sample loaded record built by the row transformation of the loader. -/
def rowOfSpectrum (sp : List Char) : PsmRow :=
  processRow ("runfolder".data) none none (mkSampleRow sp)

/-- Sample consolidated table: three records sharing one spectrum key and
one record with a unique key. -/
def sampleTable4 : List PsmRow :=
  [rowOfSpectrum ("RunA.00988.00988.2".data),
   rowOfSpectrum ("RunA.00988.00988.3".data),
   rowOfSpectrum ("RunA.00988.00988.4".data),
   rowOfSpectrum ("RunB.00050.00050.2".data)]

/-- Sample consolidated table holding a record with an unparseable
identifier, hence an absent spectrum key, next to a keyed record. -/
def sampleTableBad : List PsmRow :=
  [rowOfSpectrum ("bad_identifier".data),
   rowOfSpectrum ("RunA.00988.00988.2".data)]

/-- Sample file located under a folder literally named lib. -/
def libFile : PsmFile :=
  { dirParts := ["fragpipe".data, "lib".data],
    rows := [mkSampleRow ("RunL.00010.00010.2".data)] }

/-- Sample regular input file. -/
def fileA : PsmFile :=
  { dirParts := ["fragpipe".data, "runfolder".data],
    rows := [mkSampleRow ("RunA.00988.00988.2".data)] }

/-- Second sample regular input file. -/
def fileB : PsmFile :=
  { dirParts := ["fragpipe".data, "otherfolder".data],
    rows := [mkSampleRow ("RunB.00988.00988.2".data)] }

/-- Sample file whose single row has an unparseable identifier. -/
def badFile : PsmFile :=
  { dirParts := ["fragpipe".data, "runfolder".data],
    rows := [mkSampleRow ("bad_identifier".data)] }

/-- The table the loader produces for the sample file with the bad row. -/
def badFileLoaded : List PsmRow := (load_single_psm_file badFile).getD []

/-- Sample batch holding a lib file and a regular file. -/
def sampleFiles : List PsmFile := [libFile, fileA]

/-- The lemma splitLast c s = none holds exactly when c does not occur. -/
theorem splitLast_eq_none_iff (c : Char) (s : List Char) :
    splitLast c s = none ↔ c ∉ s := by
  induction s with
  | nil => simp [splitLast]
  | cons x rest ih =>
    rw [splitLast]
    cases h : splitLast c rest with
    | some ab =>
      have hc : c ∈ rest := by
        by_contra hnc
        rw [← ih] at hnc
        rw [h] at hnc
        exact Option.noConfusion hnc
      simp [List.mem_cons, hc]
    | none =>
      have hnc : c ∉ rest := ih.1 h
      by_cases hx : x = c
      · subst hx
        simp
      · simp [hx, List.mem_cons, hnc]
        exact fun he => hx he.symm

/-- Splitting at the last occurrence: appending a separator and a
separator-free tail is inverted exactly. -/
theorem splitLast_append (c : Char) (a b : List Char) (hb : c ∉ b) :
    splitLast c (a ++ c :: b) = some (a, b) := by
  induction a with
  | nil =>
    rw [List.nil_append, splitLast, (splitLast_eq_none_iff c b).2 hb]
    simp
  | cons x a ih =>
    rw [List.cons_append, splitLast, ih]

/-- A successful splitLast decomposes its input, with the separator absent
from the tail. -/
theorem splitLast_eq_some (c : Char) (s a b : List Char)
    (h : splitLast c s = some (a, b)) : s = a ++ c :: b ∧ c ∉ b := by
  induction s generalizing a b with
  | nil => exact Option.noConfusion h
  | cons x rest ih =>
    rw [splitLast] at h
    cases hr : splitLast c rest with
    | some ab =>
      obtain ⟨a1, b1⟩ := ab
      rw [hr] at h
      simp only [Option.some.injEq, Prod.mk.injEq] at h
      obtain ⟨ha, hb⟩ := h
      obtain ⟨hs, hnb⟩ := ih a1 b1 hr
      subst ha
      subst hb
      subst hs
      exact ⟨rfl, hnb⟩
    | none =>
      rw [hr] at h
      by_cases hx : x = c
      · rw [if_pos hx] at h
        simp only [Option.some.injEq, Prod.mk.injEq] at h
        obtain ⟨ha, hb⟩ := h
        refine ⟨by simp [← ha, ← hb, hx], ?_⟩
        rw [← hb]
        exact (splitLast_eq_none_iff c rest).1 hr
      · rw [if_neg hx] at h
        exact Option.noConfusion h

/-- A successful splitLast consumes one occurrence of the separator. -/
theorem count_of_splitLast (c : Char) (s a b : List Char)
    (h : splitLast c s = some (a, b)) : s.count c = a.count c + 1 := by
  obtain ⟨hs, hb⟩ := splitLast_eq_some c s a b h
  subst hs
  have hb0 : b.count c = 0 := List.count_eq_zero.2 hb
  simp [List.count_append, List.count_cons, hb0]

/-- Distinct digits below 10 render to distinct characters. -/
theorem digitChar_lt10_inj : ∀ d1 < 10, ∀ d2 < 10, digitChar d1 = digitChar d2 → d1 = d2 := by
  decide

/-- Digit characters are never the colon. -/
theorem digitChar_ne_colon : ∀ d < 10, digitChar d ≠ ':' := by decide

/-- Digit characters are never the minus sign. -/
theorem digitChar_ne_dash : ∀ d < 10, digitChar d ≠ '-' := by decide

/-- The fuel-driven renderer with sufficient fuel computes the reversed
digit expansion in base 10. -/
theorem natReprGo_eq (fuel : Nat) : ∀ n acc, n ≤ fuel →
    natReprGo fuel n acc =
      (if n = 0 then ['0'] else ((Nat.digits 10 n).map digitChar).reverse) ++ acc := by
  induction fuel with
  | zero =>
    intro n acc hn
    interval_cases n
    simp [natReprGo, digitChar]
  | succ fuel ih =>
    intro n acc hn
    rw [natReprGo]
    by_cases h10 : n < 10
    · rcases Nat.eq_zero_or_pos n with h0 | hpos
      · subst h0
        simp [digitChar]
      · have hd : Nat.digits 10 n = [n] := by
          rw [Nat.digits_def' (by norm_num : (1:ℕ) < 10) hpos]
          rw [Nat.mod_eq_of_lt h10, Nat.div_eq_of_lt h10]
          simp
        rw [if_pos h10, hd]
        simp [Nat.pos_iff_ne_zero.1 hpos]
    · have hpos : 0 < n := by omega
      have hlt : n / 10 < n := Nat.div_lt_self hpos (by norm_num)
      have hdiv : n / 10 ≤ fuel := by omega
      rw [if_neg h10, ih (n / 10) _ hdiv]
      have hne : ¬ n / 10 = 0 := by omega
      have hn0 : ¬ n = 0 := by omega
      have hd : Nat.digits 10 n = n % 10 :: Nat.digits 10 (n / 10) :=
        Nat.digits_def' (by norm_num : (1:ℕ) < 10) hpos
      rw [if_neg hne, if_neg hn0, hd]
      simp

/-- The decimal rendering is the reversed digit expansion. -/
theorem natRepr_eq (n : Nat) :
    natRepr n = (if n = 0 then ['0'] else ((Nat.digits 10 n).map digitChar).reverse) := by
  have h := natReprGo_eq n n [] le_rfl
  simpa [natRepr] using h

/-- Every character of a rendered natural number is a digit character. -/
theorem mem_natRepr (n : Nat) (c : Char) (hc : c ∈ natRepr n) :
    ∃ d, d < 10 ∧ c = digitChar d := by
  rw [natRepr_eq] at hc
  by_cases h0 : n = 0
  · rw [if_pos h0] at hc
    simp at hc
    exact ⟨0, by norm_num, by rw [hc]; rfl⟩
  · rw [if_neg h0] at hc
    rw [List.mem_reverse] at hc
    obtain ⟨d, hd, he⟩ := List.mem_map.1 hc
    exact ⟨d, Nat.digits_lt_base (by norm_num) hd, he.symm⟩

/-- The colon never occurs in a rendered natural number. -/
theorem colon_not_mem_natRepr (n : Nat) : ':' ∉ natRepr n := by
  intro h
  obtain ⟨d, hd, he⟩ := mem_natRepr n ':' h
  exact digitChar_ne_colon d hd he.symm

/-- The colon never occurs in a rendered integer. -/
theorem colon_not_mem_intRepr (s : Int) : ':' ∉ intRepr s := by
  cases s with
  | ofNat n => exact colon_not_mem_natRepr n
  | negSucc m =>
    intro h
    rw [intRepr] at h
    rcases List.mem_cons.1 h with h1 | h1
    · exact absurd h1 (by decide)
    · exact colon_not_mem_natRepr _ h1

/-- Mapping digitChar over lists of digits below 10 is injective. -/
theorem map_digitChar_inj : ∀ l1 l2 : List Nat, (∀ d ∈ l1, d < 10) → (∀ d ∈ l2, d < 10) →
    l1.map digitChar = l2.map digitChar → l1 = l2 := by
  intro l1
  induction l1 with
  | nil =>
    intro l2 _ _ h
    cases l2 with
    | nil => rfl
    | cons e l2t => exact absurd h (by simp)
  | cons d lt ih =>
    intro l2 h1 h2 h
    cases l2 with
    | nil => exact absurd h (by simp)
    | cons e l2t =>
      simp only [List.map_cons, List.cons.injEq] at h
      obtain ⟨hde, hl⟩ := h
      have hd10 : d < 10 := h1 d (List.mem_cons_self d lt)
      have he10 : e < 10 := h2 e (List.mem_cons_self e l2t)
      have hde2 : d = e := digitChar_lt10_inj d hd10 e he10 hde
      have hlt : lt = l2t :=
        ih l2t (fun x hx => h1 x (List.mem_cons_of_mem d hx))
          (fun x hx => h2 x (List.mem_cons_of_mem e hx)) hl
      rw [hde2, hlt]

/-- Decimal rendering of natural numbers is injective. -/
theorem natRepr_inj (m n : Nat) (h : natRepr m = natRepr n) : m = n := by
  rw [natRepr_eq, natRepr_eq] at h
  by_cases hm : m = 0 <;> by_cases hn : n = 0
  · rw [hm, hn]
  · exfalso
    rw [if_pos hm, if_neg hn] at h
    have h1 : (Nat.digits 10 n).map digitChar = ['0'] := by
      have h2 := congrArg List.reverse h
      simpa using h2.symm
    have hlen : (Nat.digits 10 n).length = 1 := by
      have h3 := congrArg List.length h1
      simpa using h3
    obtain ⟨d, hd⟩ := List.length_eq_one.1 hlen
    rw [hd] at h1
    simp only [List.map_cons, List.map_nil, List.cons.injEq] at h1
    have hd10 : d < 10 := Nat.digits_lt_base (by norm_num) (by rw [hd]; exact List.mem_singleton.2 rfl)
    have hd0 : d = 0 := digitChar_lt10_inj d hd10 0 (by norm_num) (by rw [h1.1]; rfl)
    have hnd : n = d := by
      have h4 := Nat.ofDigits_digits 10 n
      rw [hd] at h4
      simpa [Nat.ofDigits] using h4.symm
    exact hn (by rw [hnd, hd0])
  · exfalso
    rw [if_neg hm, if_pos hn] at h
    have h1 : (Nat.digits 10 m).map digitChar = ['0'] := by
      have h2 := congrArg List.reverse h
      simpa using h2
    have hlen : (Nat.digits 10 m).length = 1 := by
      have h3 := congrArg List.length h1
      simpa using h3
    obtain ⟨d, hd⟩ := List.length_eq_one.1 hlen
    rw [hd] at h1
    simp only [List.map_cons, List.map_nil, List.cons.injEq] at h1
    have hd10 : d < 10 := Nat.digits_lt_base (by norm_num) (by rw [hd]; exact List.mem_singleton.2 rfl)
    have hd0 : d = 0 := digitChar_lt10_inj d hd10 0 (by norm_num) (by rw [h1.1]; rfl)
    have hmd : m = d := by
      have h4 := Nat.ofDigits_digits 10 m
      rw [hd] at h4
      simpa [Nat.ofDigits] using h4.symm
    exact hm (by rw [hmd, hd0])
  · rw [if_neg hm, if_neg hn] at h
    have hdig : Nat.digits 10 m = Nat.digits 10 n :=
      map_digitChar_inj _ _ (fun d hd => Nat.digits_lt_base (by norm_num) hd)
        (fun d hd => Nat.digits_lt_base (by norm_num) hd) (List.reverse_inj.1 h)
    have := congrArg (Nat.ofDigits 10) hdig
    simpa [Nat.ofDigits_digits] using this

/-- The minus sign never occurs in a rendered natural number. -/
theorem dash_not_mem_natRepr (n : Nat) : '-' ∉ natRepr n := by
  intro h
  obtain ⟨d, hd, he⟩ := mem_natRepr n '-' h
  exact digitChar_ne_dash d hd he.symm

/-- Decimal rendering of integers is injective. -/
theorem intRepr_inj (s t : Int) (h : intRepr s = intRepr t) : s = t := by
  cases s with
  | ofNat m =>
    cases t with
    | ofNat n =>
      rw [intRepr, intRepr] at h
      rw [natRepr_inj m n h]
    | negSucc n =>
      exfalso
      rw [intRepr, intRepr] at h
      exact dash_not_mem_natRepr m (by rw [h]; exact List.mem_cons_self _ _)
  | negSucc m =>
    cases t with
    | ofNat n =>
      exfalso
      rw [intRepr, intRepr] at h
      exact dash_not_mem_natRepr n (by rw [← h]; exact List.mem_cons_self _ _)
    | negSucc n =>
      rw [intRepr, intRepr] at h
      simp only [List.cons.injEq] at h
      have hmn : m = n := by
        have := natRepr_inj (m + 1) (n + 1) h.2
        omega
      rw [hmn]

/-- Appending two strings around the double-colon separator is injective
when neither tail contains a colon. -/
theorem sep_append_inj (a b x y : List Char) (hx : ':' ∉ x) (hy : ':' ∉ y)
    (h : a ++ ':' :: ':' :: x = b ++ ':' :: ':' :: y) : a = b ∧ x = y := by
  have h1 : splitLast ':' (a ++ ':' :: ':' :: x) = some (a ++ [':'], x) := by
    have ha : a ++ ':' :: ':' :: x = (a ++ [':']) ++ ':' :: x := by simp
    rw [ha]
    exact splitLast_append ':' (a ++ [':']) x hx
  have h2 : splitLast ':' (b ++ ':' :: ':' :: y) = some (b ++ [':'], y) := by
    have hb2 : b ++ ':' :: ':' :: y = (b ++ [':']) ++ ':' :: y := by simp
    rw [hb2]
    exact splitLast_append ':' (b ++ [':']) y hy
  rw [h, h2] at h1
  simp only [Option.some.injEq, Prod.mk.injEq, List.append_left_inj] at h1
  exact ⟨h1.1.symm, h1.2.symm⟩

/-- C1. Spectrum-key uniqueness: two records whose parsed (run name, scan
number) pairs are distinct, in particular records with identical scan
numbers from different runs, receive distinct key strings from
create_spectrum_key. -/
theorem spectrum_key_injective (n1 n2 : List Char) (s1 s2 : Int)
    (h : (n1, s1) ≠ (n2, s2)) :
    create_spectrum_key n1 s1 ≠ create_spectrum_key n2 s2 := by
  intro he
  rw [create_spectrum_key, create_spectrum_key] at he
  obtain ⟨hn, hs⟩ := sep_append_inj n1 n2 (intRepr s1) (intRepr s2)
    (colon_not_mem_intRepr s1) (colon_not_mem_intRepr s2) he
  exact h (by rw [hn, intRepr_inj s1 s2 hs])

/-- C1 witness: the identical scan number 988 in two different runs gets two
different spectrum keys. -/
theorem spectrum_key_injective_witness :
    create_spectrum_key ("RunA".data) 988 ≠ create_spectrum_key ("RunB".data) 988 :=
  spectrum_key_injective ("RunA".data) ("RunB".data) 988 988 (by decide)

/-- C5 counterexample: the key assignment may receive a run name containing
the double-colon delimiter, for instance the run name parsed from the
Spectrum value a::b.1.1.2, and then the delimiter does occur inside the
run-name component of the key, contradicting the claim that it appears in
neither component for any run-name string. -/
theorem key_delimiter_claim_false :
    (parse_spectrum_column ("a::b.1.1.2".data)).1 = some ("a::b".data) ∧
    List.IsInfix (':' :: ':' :: []) ("a::b".data) ∧
    create_spectrum_key ("a::b".data) 1 = ("a::b::1".data) := by
  refine ⟨by decide, ⟨"a".data, "b".data, by decide⟩, by decide⟩

/-- C5 amended: the spectrum key is the run name and the rendered scan
number joined by the double-colon delimiter, and the delimiter never occurs
in the rendered scan-number component; run names, in contrast, may contain
it, and key uniqueness holds regardless. -/
theorem key_delimiter_scan_safe (name : List Char) (scan : Int) :
    create_spectrum_key name scan = name ++ ':' :: ':' :: intRepr scan ∧
    ¬ List.IsInfix (':' :: ':' :: []) (intRepr scan) := by
  refine ⟨rfl, ?_⟩
  intro hinf
  have hc : ':' ∈ intRepr scan := hinf.subset (by simp)
  exact colon_not_mem_intRepr scan hc

/-- C4 counterexample: the folder name 118_60_1_6_1mz given by the claim
matches neither folder pattern, so parse_folder_name reports both fields
absent rather than window 1.6. -/
theorem folder_decimal_claim_false :
    parse_folder_name ("118_60_1_6_1mz".data) = (none, none) := by decide

/-- C4 amended: the decimal-style folder name 118_60_1_6mz_1 parses to
window 1.6 and replicate 1, and the integer-style folder name 86_45_24mz_2
parses to window 24.0 and replicate 2; the two patterns are distinguished
by the order they are tried, the decimal one first, not by magnitude, and
neither of these names matches the other pattern. -/
theorem folder_metadata_parse :
    parse_folder_name ("118_60_1_6mz_1".data) = (some (8 / 5 : ℚ), some 1) ∧
    parse_folder_name ("86_45_24mz_2".data) = (some (24 : ℚ), some 2) ∧
    matchIntegerFolder ("118_60_1_6mz_1".data) = none ∧
    matchDecimalFolder ("86_45_24mz_2".data) = none := by
  refine ⟨?_, ?_, by decide, by decide⟩
  · have h : matchDecimalFolder ("118_60_1_6mz_1".data) =
        some ((digitsToNat ("1".data) : ℚ) +
          (digitsToNat ("6".data) : ℚ) / (10 : ℚ) ^ (("6".data).length),
          digitsToNat ("1".data)) := rfl
    have e1 : digitsToNat ("1".data) = 1 := by decide
    have e6 : digitsToNat ("6".data) = 6 := by decide
    have elen : ("6".data).length = 1 := by decide
    rw [e1, e6, elen] at h
    simp only [parse_folder_name, h]
    norm_num
  · have h : matchDecimalFolder ("86_45_24mz_2".data) = none := by decide
    have h2 : matchIntegerFolder ("86_45_24mz_2".data) =
        some ((digitsToNat ("24".data) : ℚ), digitsToNat ("2".data)) := rfl
    have e24 : digitsToNat ("24".data) = 24 := by decide
    have e2 : digitsToNat ("2".data) = 2 := by decide
    rw [e24, e2] at h2
    simp only [parse_folder_name, h, h2]
    norm_num

/-- C3. Spectrum-identifier parsing: a composite identifier made of a run
name (which may itself contain dots) followed by three dot-led dot-free
segments, of which the first and the last parse as integers, parses to that
run name, that scan and that charge; and every input with fewer than three
dots, that is fewer than 4 dot-segments, parses to all-absent without
raising. -/
theorem spectrum_parse_contract :
    (∀ (name d1 d2 d3 : List Char) (sv cv : Int),
      '.' ∉ d1 → '.' ∉ d2 → '.' ∉ d3 →
      pyInt d1 = some sv → pyInt d3 = some cv →
      parse_spectrum_column (((name ++ '.' :: d1) ++ '.' :: d2) ++ '.' :: d3) =
        (some name, some sv, some cv)) ∧
    (∀ s : List Char, s.count '.' < 3 →
      parse_spectrum_column s = (none, none, none)) := by
  constructor
  · intro name d1 d2 d3 sv cv h1 h2 h3 hs hc
    have e3 := splitLast_append '.' ((name ++ '.' :: d1) ++ '.' :: d2) d3 h3
    have e2 := splitLast_append '.' (name ++ '.' :: d1) d2 h2
    have e1 := splitLast_append '.' name d1 h1
    simp only [parse_spectrum_column, e3, e2, e1, hs, hc]
  · intro s hcount
    cases hsl : splitLast '.' s with
    | none => simp [parse_spectrum_column, hsl]
    | some rp =>
      obtain ⟨r1, p3⟩ := rp
      have hc1 : r1.count '.' + 1 ≤ s.count '.' := by
        have := count_of_splitLast '.' s r1 p3 hsl
        omega
      cases hsl2 : splitLast '.' r1 with
      | none => simp [parse_spectrum_column, hsl, hsl2]
      | some rp2 =>
        obtain ⟨r2, p2⟩ := rp2
        have hc2 : r2.count '.' + 1 ≤ r1.count '.' := by
          have := count_of_splitLast '.' r1 r2 p2 hsl2
          omega
        have hr2 : r2.count '.' = 0 := by omega
        have hnone : splitLast '.' r2 = none :=
          (splitLast_eq_none_iff '.' r2).2 (List.count_eq_zero.1 hr2)
        simp [parse_spectrum_column, hsl, hsl2, hnone]

/-- C3 witness: the identifier RunA.00988.00988.2 parses to run name RunA,
scan 988, charge 2, and the dotless input bad_identifier parses to
all-absent. -/
theorem spectrum_parse_contract_witness :
    parse_spectrum_column ("RunA.00988.00988.2".data) =
      (some ("RunA".data), some 988, some 2) ∧
    parse_spectrum_column ("bad_identifier".data) = (none, none, none) := by
  constructor
  · have h := spectrum_parse_contract.1 ("RunA".data) ("00988".data) ("00988".data)
      ("2".data) 988 2 (by decide) (by decide) (by decide) (by decide) (by decide)
    have he : ((("RunA".data ++ '.' :: "00988".data) ++ '.' :: "00988".data) ++ '.' :: "2".data)
        = ("RunA.00988.00988.2".data) := by decide
    rw [he] at h
    exact h
  · exact spectrum_parse_contract.2 ("bad_identifier".data) (by decide)

/-- Finding a key in the mapped pairs of a key list succeeds for every
present key, returning its pair. -/
theorem find_in_pairs (t : List PsmRow) (keys : List (List Char)) (k : List Char)
    (hk : k ∈ keys) :
    (keys.map (fun x => (x, countKey t x))).find? (fun p => decide (p.1 = k)) =
      some (k, countKey t k) := by
  induction keys with
  | nil => cases hk
  | cons x rest ih =>
    rw [List.map_cons]
    by_cases hx : x = k
    · subst hx
      rw [List.find?_cons_of_pos _ (by simp)]
    · rw [List.find?_cons_of_neg _ (by simp [hx])]
      have hk2 : k ∈ rest := by
        cases List.mem_cons.1 hk with
        | inl h => exact absurd h.symm hx
        | inr h => exact h
      exact ih hk2

/-- Finding an absent key in the mapped pairs of a key list fails. -/
theorem find_none_of_not_mem (t : List PsmRow) (keys : List (List Char)) (k : List Char)
    (hk : k ∉ keys) :
    (keys.map (fun x => (x, countKey t x))).find? (fun p => decide (p.1 = k)) = none := by
  rw [List.find?_eq_none]
  intro p hp
  obtain ⟨x, hx, rfl⟩ := List.mem_map.1 hp
  simp only [decide_eq_true_eq]
  exact fun h => hk (h ▸ hx)

/-- Looking up a key present in the table yields its group size. -/
theorem lookupCount_some (table : List PsmRow) (k : List Char)
    (hk : k ∈ tableKeys table) :
    lookupCount (psm_counts table) k = some (countKey table k) := by
  rw [lookupCount, psm_counts, find_in_pairs table (tableKeys table) k hk]
  rfl

/-- Looking up a key absent from the table yields nothing. -/
theorem lookupCount_none (table : List PsmRow) (k : List Char)
    (hk : k ∉ tableKeys table) :
    lookupCount (psm_counts table) k = none := by
  rw [lookupCount, psm_counts, find_none_of_not_mem table (tableKeys table) k hk]
  rfl

/-- The key of any record of the table occurs among the group labels. -/
theorem key_mem_tableKeys (table : List PsmRow) (r : PsmRow) (hr : r ∈ table)
    (k : List Char) (hk : r.spectrum_key = some k) : k ∈ tableKeys table := by
  rw [tableKeys, List.mem_dedup]
  exact List.mem_filterMap.2 ⟨r, hr, hk⟩

/-- C2. Chimericity aggregation: every record of the consolidated table
with a present spectrum key is annotated with the count of records sharing
that key, and the chimeric flag holds exactly when that count is at least
2. -/
theorem chimericity_aggregation (table : List PsmRow) (r : AnnRow)
    (hr : r ∈ add_derived_columns table) (k : List Char)
    (hk : r.spectrum_key = some k) :
    r.n_psm = some (countKey table k) ∧
    (r.is_chimeric = true ↔ 2 ≤ countKey table k) := by
  rw [add_derived_columns] at hr
  obtain ⟨r0, hr0, rfl⟩ := List.mem_map.1 hr
  have hk0 : r0.spectrum_key = some k := hk
  have hmem := key_mem_tableKeys table r0 hr0 k hk0
  have hl := lookupCount_some table k hmem
  constructor
  · simp [annotateRow, hk0, hl]
  · simp [annotateRow, hk0, hl]

/-- C2 witness: in the sample table with 3 records sharing one key and 1
record with a unique key, each shared record gets count 3 and the chimeric
flag, and the unique record gets count 1 and no flag. -/
theorem chimericity_aggregation_witness :
    (annotateRow (psm_counts sampleTable4) (rowOfSpectrum ("RunA.00988.00988.2".data))).n_psm
      = some 3 ∧
    (annotateRow (psm_counts sampleTable4) (rowOfSpectrum ("RunA.00988.00988.2".data))).is_chimeric
      = true ∧
    (annotateRow (psm_counts sampleTable4) (rowOfSpectrum ("RunB.00050.00050.2".data))).n_psm
      = some 1 ∧
    (annotateRow (psm_counts sampleTable4) (rowOfSpectrum ("RunB.00050.00050.2".data))).is_chimeric
      = false := by
  have hA := chimericity_aggregation sampleTable4
    (annotateRow (psm_counts sampleTable4) (rowOfSpectrum ("RunA.00988.00988.2".data)))
    (by decide) (create_spectrum_key ("RunA".data) 988) (by decide)
  have hB := chimericity_aggregation sampleTable4
    (annotateRow (psm_counts sampleTable4) (rowOfSpectrum ("RunB.00050.00050.2".data)))
    (by decide) (create_spectrum_key ("RunB".data) 50) (by decide)
  have hcA : countKey sampleTable4 (create_spectrum_key ("RunA".data) 988) = 3 := by decide
  have hcB : countKey sampleTable4 (create_spectrum_key ("RunB".data) 50) = 1 := by decide
  refine ⟨?_, ?_, ?_, ?_⟩
  · rw [hA.1, hcA]
  · exact hA.2.mpr (by rw [hcA]; norm_num)
  · rw [hB.1, hcB]
  · have h2 := hB.2
    rw [hcB] at h2
    have h3 : ¬ ((annotateRow (psm_counts sampleTable4)
        (rowOfSpectrum ("RunB.00050.00050.2".data))).is_chimeric = true) := by
      intro ht
      have := h2.mp ht
      omega
    simpa using h3

/-- A successful load implies the file is not under a lib folder, and every
produced record carries the parent folder name as its source_folder. -/
theorem load_source_folder (f : PsmFile) (t : List PsmRow)
    (h : load_single_psm_file f = some t) :
    parentName f ≠ "lib".data ∧ ∀ r ∈ t, r.source_folder = parentName f := by
  rw [load_single_psm_file] at h
  by_cases hlib : parentName f = "lib".data
  · rw [if_pos hlib] at h
    exact Option.noConfusion h
  · rw [if_neg hlib] at h
    by_cases hrows : f.rows = []
    · rw [if_pos hrows] at h
      exact Option.noConfusion h
    · rw [if_neg hrows] at h
      refine ⟨hlib, ?_⟩
      have ht := Option.some.inj h
      intro r hr
      rw [← ht] at hr
      obtain ⟨row, hrow, rfl⟩ := List.mem_map.1 hr
      rfl

/-- A parent folder named lib occurs among the path components. -/
theorem parentName_mem (f : PsmFile) (h : parentName f = "lib".data) :
    "lib".data ∈ f.dirParts := by
  rw [parentName] at h
  cases hl : f.dirParts.getLast? with
  | none =>
    rw [hl] at h
    exact absurd h (by decide)
  | some x =>
    rw [hl] at h
    simp only [Option.getD_some] at h
    have h2 : x = "lib".data := by
      rw [h]
    rw [← h2]
    exact List.mem_of_getLast?_eq_some hl

/-- C6. Exclusion rule: a file whose containing folder is literally named
lib is rejected by the discovery filter and by the loader, and no record of
the consolidated pipeline output carries the lib folder name, so no row of
such a file ever appears in the output. -/
theorem lib_exclusion (files : List PsmFile) (f : PsmFile) (_hf : f ∈ files)
    (hlib : parentName f = "lib".data) :
    f ∉ discoverFiles files ∧ load_single_psm_file f = none ∧
    ∀ r ∈ fullPipeline files, r.source_folder ≠ "lib".data := by
  refine ⟨?_, ?_, ?_⟩
  · intro hmem
    rw [discoverFiles] at hmem
    have hpred := (List.mem_filter.1 hmem).2
    have h2 := of_decide_eq_true hpred
    exact h2 (by rw [fileParts]; exact List.mem_append_left _ (parentName_mem f hlib))
  · rw [load_single_psm_file, if_pos hlib]
  · intro r hr
    rw [fullPipeline, add_derived_columns] at hr
    obtain ⟨r0, hr0, rfl⟩ := List.mem_map.1 hr
    show r0.source_folder ≠ "lib".data
    rw [load_batch] at hr0
    obtain ⟨t, ht, hrt⟩ := List.mem_flatten.1 hr0
    obtain ⟨g, hg, hgt⟩ := List.mem_filterMap.1 ht
    obtain ⟨hglib, hsrc⟩ := load_source_folder g t hgt
    rw [hsrc r0 hrt]
    exact hglib

/-- C6 witness: in the sample batch, the file under the lib folder is
dropped by discovery and by the loader, and no output record carries the
lib folder name. -/
theorem lib_exclusion_witness :
    libFile ∉ discoverFiles sampleFiles ∧ load_single_psm_file libFile = none ∧
    ∀ r ∈ fullPipeline sampleFiles, r.source_folder ≠ "lib".data :=
  lib_exclusion sampleFiles libFile (by decide) (by decide)

/-- C7. Per-row error recovery: in every successfully loaded table, the row
count matches the input file, and every row whose composite identifier does
not parse keeps all of its original fields while its derived fields are
absent; the row is not dropped. -/
theorem row_error_recovery (f : PsmFile) (t : List PsmRow)
    (h : load_single_psm_file f = some t) :
    t.length = f.rows.length ∧
    ∀ i (hi : i < f.rows.length),
      parse_spectrum_column (f.rows.get ⟨i, hi⟩).spectrum = (none, none, none) →
      ∃ hj : i < t.length,
        (t.get ⟨i, hj⟩).spectrum = (f.rows.get ⟨i, hi⟩).spectrum ∧
        (t.get ⟨i, hj⟩).peptide = (f.rows.get ⟨i, hi⟩).peptide ∧
        (t.get ⟨i, hj⟩).others = (f.rows.get ⟨i, hi⟩).others ∧
        (t.get ⟨i, hj⟩).mzml_name = none ∧
        (t.get ⟨i, hj⟩).scan_number = none ∧
        (t.get ⟨i, hj⟩).charge_from_spectrum = none ∧
        (t.get ⟨i, hj⟩).spectrum_key = none := by
  rw [load_single_psm_file] at h
  by_cases hlib : parentName f = "lib".data
  · rw [if_pos hlib] at h
    exact Option.noConfusion h
  · rw [if_neg hlib] at h
    by_cases hrows : f.rows = []
    · rw [if_pos hrows] at h
      exact Option.noConfusion h
    · rw [if_neg hrows] at h
      have ht := Option.some.inj h
      subst ht
      have hlen : (f.rows.map (processRow (parentName f)
          (parse_folder_name (parentName f)).1
          (parse_folder_name (parentName f)).2)).length = f.rows.length :=
        List.length_map _ _
      refine ⟨hlen, ?_⟩
      intro i hi hparse
      have hj : i < (f.rows.map (processRow (parentName f)
          (parse_folder_name (parentName f)).1
          (parse_folder_name (parentName f)).2)).length := by
        rw [hlen]
        exact hi
      refine ⟨hj, ?_⟩
      have hget : (f.rows.map (processRow (parentName f)
          (parse_folder_name (parentName f)).1
          (parse_folder_name (parentName f)).2)).get ⟨i, hj⟩ =
          processRow (parentName f) (parse_folder_name (parentName f)).1
            (parse_folder_name (parentName f)).2 (f.rows.get ⟨i, hi⟩) := by
        simp [List.get_eq_getElem, List.getElem_map]
      rw [hget]
      simp only [List.get_eq_getElem] at hparse
      refine ⟨rfl, rfl, rfl, ?_, ?_, ?_, ?_⟩
      all_goals simp [processRow, hparse]

/-- C7 witness: the sample file with the unparseable identifier loads to a
one-row table that keeps the original Spectrum value and has all derived
fields absent. -/
theorem row_error_recovery_witness :
    badFileLoaded.length = 1 ∧
    (badFileLoaded.get ⟨0, by decide⟩).spectrum = ("bad_identifier".data) ∧
    (badFileLoaded.get ⟨0, by decide⟩).peptide = ("PEPTIDE".data) ∧
    (badFileLoaded.get ⟨0, by decide⟩).mzml_name = none ∧
    (badFileLoaded.get ⟨0, by decide⟩).scan_number = none ∧
    (badFileLoaded.get ⟨0, by decide⟩).charge_from_spectrum = none ∧
    (badFileLoaded.get ⟨0, by decide⟩).spectrum_key = none := by
  obtain ⟨hlen, hrow⟩ := row_error_recovery badFile badFileLoaded (by decide)
  obtain ⟨hj, h1, h2, h3, h4, h5, h6, h7⟩ := hrow 0 (by decide) (by decide)
  exact ⟨by decide, h1.trans (by decide), h2.trans (by decide), h4, h5, h6, h7⟩

/-- C9. Configuration error: when the PSM directory is neither given on the
command line nor found by the search, main reports the error lines with
remediation instructions, exits with the nonzero status 1, loads no file
and writes no output. -/
theorem config_error_fatal (cli search : Option DirHandle) (dryRun : Bool)
    (hc : cli = none) (hs : search = none) :
    (main_flow cli search dryRun).exitCode = 1 ∧
    (main_flow cli search dryRun).exitCode ≠ 0 ∧
    (main_flow cli search dryRun).errorLines = psmDirErrorLines ∧
    (main_flow cli search dryRun).loadedTable = [] ∧
    (main_flow cli search dryRun).outputsWritten = [] := by
  subst hc
  subst hs
  refine ⟨rfl, ?_, rfl, rfl, rfl⟩
  intro h
  rw [main_flow] at h
  simp at h

/-- C9 witness: the concrete run with no directory given and none found
exits with status 1, reports the remediation lines, loads nothing and
writes nothing. -/
theorem config_error_fatal_witness :
    (main_flow none none false).exitCode = 1 ∧
    (main_flow none none false).exitCode ≠ 0 ∧
    (main_flow none none false).errorLines = psmDirErrorLines ∧
    (main_flow none none false).loadedTable = [] ∧
    (main_flow none none false).outputsWritten = [] :=
  config_error_fatal none none false rfl rfl

/-- C10. Records with an absent spectrum key get an absent per-spectrum
count but a False, not absent, chimeric flag, and never appear in the
chimeric-only filtered output. -/
theorem absent_key_not_chimeric (table : List PsmRow) :
    (∀ r ∈ add_derived_columns table,
      r.spectrum_key = none → r.n_psm = none ∧ r.is_chimeric = false) ∧
    (∀ r ∈ chimeric_subset (add_derived_columns table), r.spectrum_key ≠ none) := by
  have hmain : ∀ r ∈ add_derived_columns table,
      r.spectrum_key = none → r.n_psm = none ∧ r.is_chimeric = false := by
    intro r hr hk
    rw [add_derived_columns] at hr
    obtain ⟨r0, hr0, rfl⟩ := List.mem_map.1 hr
    have hk0 : r0.spectrum_key = none := hk
    constructor
    · simp [annotateRow, hk0]
    · simp [annotateRow, hk0]
  refine ⟨hmain, ?_⟩
  intro r hr hk
  rw [chimeric_subset] at hr
  have hmem := List.mem_filter.1 hr
  have hic := hmain r hmem.1 hk
  have h2 := hmem.2
  rw [hic.2] at h2
  exact Bool.noConfusion h2

/-- C10 witness: the sample record with the unparseable identifier is
annotated with an absent count and a False chimeric flag. -/
theorem absent_key_not_chimeric_witness :
    (annotateRow (psm_counts sampleTableBad)
      (rowOfSpectrum ("bad_identifier".data))).n_psm = none ∧
    (annotateRow (psm_counts sampleTableBad)
      (rowOfSpectrum ("bad_identifier".data))).is_chimeric = false :=
  (absent_key_not_chimeric sampleTableBad).1
    (annotateRow (psm_counts sampleTableBad) (rowOfSpectrum ("bad_identifier".data)))
    (by decide) (by decide)

/-- Group sizes are invariant under permutation of the table. -/
theorem countKey_perm (t1 t2 : List PsmRow) (h : t1.Perm t2) (k : List Char) :
    countKey t1 k = countKey t2 k :=
  h.countP_eq _

/-- Group labels are invariant, as a set, under permutation of the table. -/
theorem tableKeys_mem_iff (t1 t2 : List PsmRow) (h : t1.Perm t2) (k : List Char) :
    k ∈ tableKeys t1 ↔ k ∈ tableKeys t2 := by
  rw [tableKeys, tableKeys, List.mem_dedup, List.mem_dedup]
  exact (h.filterMap _).mem_iff

/-- The per-key lookup of the counts series is invariant under permutation
of the table. -/
theorem lookupCount_perm (t1 t2 : List PsmRow) (h : t1.Perm t2) (k : List Char) :
    lookupCount (psm_counts t1) k = lookupCount (psm_counts t2) k := by
  by_cases hk : k ∈ tableKeys t1
  · have hk2 : k ∈ tableKeys t2 := (tableKeys_mem_iff t1 t2 h k).1 hk
    rw [lookupCount_some t1 k hk, lookupCount_some t2 k hk2, countKey_perm t1 t2 h k]
  · have hk2 : k ∉ tableKeys t2 := fun hx => hk ((tableKeys_mem_iff t1 t2 h k).2 hx)
    rw [lookupCount_none t1 k hk, lookupCount_none t2 k hk2]

/-- Annotation with the counts of permuted tables agrees pointwise. -/
theorem annotateRow_perm (t1 t2 : List PsmRow) (h : t1.Perm t2) (r : PsmRow) :
    annotateRow (psm_counts t1) r = annotateRow (psm_counts t2) r := by
  have hb : r.spectrum_key.bind (fun k => lookupCount (psm_counts t1) k) =
      r.spectrum_key.bind (fun k => lookupCount (psm_counts t2) k) := by
    cases hk : r.spectrum_key with
    | none => rfl
    | some k => simpa using lookupCount_perm t1 t2 h k
  simp only [annotateRow]
  rw [hb]

/-- Loaded batches of permuted file lists are permutations of one another. -/
theorem load_batch_perm (files1 files2 : List PsmFile) (h : files1.Perm files2) :
    (load_batch files1).Perm (load_batch files2) :=
  ((h.filter _).filterMap _).flatten

/-- C8. Idempotent batch load: two executions over the same set of input
files, presented in arbitrary order, produce consolidated annotated tables
with the same row count that are equal as multisets of rows. -/
theorem batch_load_order_independent (files1 files2 : List PsmFile)
    (h : files1.Perm files2) :
    (fullPipeline files1).length = (fullPipeline files2).length ∧
    (fullPipeline files1).Perm (fullPipeline files2) := by
  have hb : (load_batch files1).Perm (load_batch files2) :=
    load_batch_perm files1 files2 h
  have hfun : annotateRow (psm_counts (load_batch files1)) =
      annotateRow (psm_counts (load_batch files2)) :=
    funext (annotateRow_perm (load_batch files1) (load_batch files2) hb)
  have hperm : (fullPipeline files1).Perm (fullPipeline files2) := by
    show ((load_batch files1).map (annotateRow (psm_counts (load_batch files1)))).Perm
      ((load_batch files2).map (annotateRow (psm_counts (load_batch files2))))
    rw [hfun]
    exact hb.map _
  exact ⟨hperm.length_eq, hperm⟩

/-- C8 witness: the two sample files loaded in either order give row-count
identical, multiset-equal consolidated output. -/
theorem batch_load_order_independent_witness :
    (fullPipeline [fileA, fileB]).length = (fullPipeline [fileB, fileA]).length ∧
    (fullPipeline [fileA, fileB]).Perm (fullPipeline [fileB, fileA]) :=
  batch_load_order_independent [fileA, fileB] [fileB, fileA] (by decide)
